import Mathlib

/-!
Verification development for the RethinkDB backend plug of a database-agnostic
persistence layer (`src/plugs/rethink.js`, second revision of the file, the one
extending `DbPlug`).  The JavaScript code is shallowly embedded: JSON-style
values become the inductive type `Value`, JavaScript objects become ordered
association lists (`Doc`), ReQL cursor/predicate construction becomes the
`Cursor`/`RTerm` syntax trees built by `applyPt`/`queryToCursor`, and the
observable behaviour of the produced queries is given by the executable
evaluators `evalTerm`/`evalCursor`.
-/

/-- JSON-style runtime value, the payload of documents and query literals.
`vnull` is JavaScript `null`; `undefined` is represented as key absence. -/
inductive Value where
  | vnull
  | vstr (s : String)
  | vint (n : Int)
  | vbool (b : Bool)
  | vobj (fields : List (String × Value))
  | varr (elems : List Value)
deriving Repr, Inhabited

/-- A JavaScript object / RethinkDB document: an insertion-ordered list of
key/value bindings.  JavaScript objects never hold duplicate keys and all
operations below preserve that. -/
abbrev Doc := List (String × Value)

mutual

/-- Structural (deep) equality of values, as used by ReQL `eq`. -/
def Value.beq : Value → Value → Bool
  | .vnull, .vnull => true
  | .vstr a, .vstr b => a == b
  | .vint a, .vint b => a == b
  | .vbool a, .vbool b => a == b
  | .vobj a, .vobj b => beqFields a b
  | .varr a, .varr b => beqElems a b
  | _, _ => false

/-- Structural equality of field lists (helper of `Value.beq`). -/
def beqFields : List (String × Value) → List (String × Value) → Bool
  | [], [] => true
  | (k1, v1) :: r1, (k2, v2) :: r2 => k1 == k2 && Value.beq v1 v2 && beqFields r1 r2
  | _, _ => false

/-- Structural equality of element lists (helper of `Value.beq`). -/
def beqElems : List Value → List Value → Bool
  | [], [] => true
  | v1 :: r1, v2 :: r2 => Value.beq v1 v2 && beqElems r1 r2
  | _, _ => false

end

/-- Structural equality on optional values (absent compares equal to absent). -/
def obeq : Option Value → Option Value → Bool
  | none, none => true
  | some a, some b => Value.beq a b
  | _, _ => false

/-- Property read `obj[key]` on a JavaScript object: the first binding wins. -/
def jsGet (key : String) (d : Doc) : Option Value :=
  match d with
  | [] => none
  | (k, v) :: rest => if k = key then some v else jsGet key rest

/-- Whether a JavaScript object has a binding for the key. -/
def hasKey (key : String) (d : Doc) : Bool :=
  match d with
  | [] => false
  | (k, _) :: rest => if k = key then true else hasKey key rest

/-- The in-place pass of a property write: rebind every occurrence of the key
where it stands. -/
def setPresent (key : String) (v : Value) : Doc → Doc
  | [] => []
  | (k, kv) :: rest =>
      if k = key then (key, v) :: setPresent key v rest
      else (k, kv) :: setPresent key v rest

/-- Property write `obj[key] = v`: an existing binding is replaced in place
(keeping its position in insertion order), otherwise the binding is appended. -/
def jsSet (key : String) (v : Value) (d : Doc) : Doc :=
  if hasKey key d then setPresent key v d else d ++ [(key, v)]

/-- Property removal `delete obj[key]`. -/
def jsDelete (key : String) (d : Doc) : Doc :=
  match d with
  | [] => []
  | (k, v) :: rest => if k = key then jsDelete key rest else (k, v) :: jsDelete key rest

/-- JavaScript deep equality of objects: same keys bound to `Value.beq`-equal
values, irrespective of insertion order. -/
def docEqv (d1 d2 : Doc) : Bool :=
  d1.all (fun p => obeq (jsGet p.1 d1) (jsGet p.1 d2)) &&
    d2.all (fun p => obeq (jsGet p.1 d1) (jsGet p.1 d2))

/-- Helper of `jsSplitDot`: accumulate characters up to each dot. -/
def splitDotAux : List Char → List Char → List String
  | [], acc => [String.mk acc.reverse]
  | c :: cs, acc =>
      if c == '.' then String.mk acc.reverse :: splitDotAux cs []
      else splitDotAux cs (c :: acc)

/-- JavaScript `key.split('.')` (always returns at least one segment). -/
def jsSplitDot (s : String) : List String := splitDotAux s.data []

/-- `swapKeys (key1, key2, obj)` from `rethink.js`: copy the object, read both
values (`hasOwnProperty` guarded, absent read as `null`), delete both keys, and
re-add each value under the other key only when it is not loosely `null`
(`val != null`). -/
def swapKeys (key1 key2 : String) (obj : Doc) : Doc :=
  let val1 := jsGet key1 obj
  let val2 := jsGet key2 obj
  let d1 := jsDelete key2 (jsDelete key1 obj)
  let d2 := match val1 with
    | some v => if Value.beq v .vnull then d1 else jsSet key2 v d1
    | none => d1
  match val2 with
  | some v => if Value.beq v .vnull then d2 else jsSet key1 v d2
  | none => d2

/-- Specification helper describing what one side of `swapKeys` transports: a
present, non-`null` value survives, while an absent or `null` value is
dropped. -/
def nonNullOpt : Option Value → Option Value
  | some v => if Value.beq v .vnull then none else some v
  | none => none

/-- Generic model record `(id, object)`.  `id` is `Option Value` because the
decoder produces JavaScript `undefined` (here `none`) when the native document
carries no primary key. -/
structure ModelRecord where
  id : Option Value
  object : Doc
deriving Repr

/-- `_handleRawModel` from `rethink.js` (the decoder): `null` input gives
`null`; otherwise swap `id`/`_id`, lift the resulting `_id` value out as the
record id, and return the remainder as the record object. -/
def handleRawModel (rawModelObject : Option Doc) : Option ModelRecord :=
  match rawModelObject with
  | none => none
  | some raw =>
      let object := swapKeys "id" "_id" raw
      let modelId := jsGet "_id" object
      some { id := modelId, object := jsDelete "_id" object }

/-- The encoder used by `replaceById`/`updateById` in `rethink.js`: swap
`id`/`_id` in the caller's object, then force the native primary-key field
`id` to the record's identifier. -/
def encodeRecord (id : Value) (newObject : Doc) : Doc :=
  jsSet "id" id (swapKeys "id" "_id" newObject)

/-- Strict lexicographic order on code-unit lists. -/
def lexLtNat : List Nat → List Nat → Bool
  | [], [] => false
  | [], _ :: _ => true
  | _ :: _, [] => false
  | a :: as, b :: bs => if a < b then true else if b < a then false else lexLtNat as bs

/-- UTF-16 code units of a character (JavaScript strings are UTF-16). -/
def utf16Units (c : Char) : List Nat :=
  if c.toNat < 0x10000 then [c.toNat]
  else [0xD800 + (c.toNat - 0x10000) / 0x400, 0xDC00 + (c.toNat - 0x10000) % 0x400]

/-- UTF-16 code-unit sequence of a string. -/
def strUtf16 (s : String) : List Nat := (s.data.map utf16Units).flatten

/-- The default comparator of JavaScript `Array.prototype.sort`: strings
compared by UTF-16 code units. -/
def jsStrLt (a b : String) : Bool := lexLtNat (strUtf16 a) (strUtf16 b)

/-- Primary collation weight of `String.prototype.localeCompare` under the
default locale: characters compare case-insensitively by base letter. -/
def localePrimary (c : Char) : Nat := c.toLower.toNat

/-- Tertiary collation weight of `localeCompare` under the default locale:
on a primary tie, lowercase sorts before uppercase. -/
def localeTertiary (c : Char) : Nat := if c.isLower then 0 else 1

/-- Model of JavaScript `a.localeCompare(b) < 0` under the default (ICU root)
locale, the comparator `rethink.js` uses to sort filter values.  This builtin
is locale/implementation dependent; the model captures the standard ICU
behaviour on ASCII (primary strength case-insensitive, whole-string primary
pass first, lowercase before uppercase at tertiary strength), which is what
Node.js with its bundled ICU exhibits. -/
def localeLt (a b : String) : Bool :=
  let pa := a.data.map localePrimary
  let pb := b.data.map localePrimary
  if lexLtNat pa pb then true
  else if lexLtNat pb pa then false
  else lexLtNat (a.data.map localeTertiary) (b.data.map localeTertiary)

/-- Insert into a sorted list using a strict `Bool` comparator (the inductive
core of a comparison sort, standing in for `Array.prototype.sort`). -/
def insLt {α : Type} (lt : α → α → Bool) (x : α) : List α → List α
  | [] => [x]
  | y :: ys => if lt x y then x :: y :: ys else y :: insLt lt x ys

/-- Comparison sort with a strict `Bool` comparator.  For a consistent
comparator the result agrees with `Array.prototype.sort` on lists of pairwise
distinct elements (the only case arising from object keys). -/
def sortLt {α : Type} (lt : α → α → Bool) (l : List α) : List α := l.foldr (insLt lt) []

/-- `keys.sort()` in JavaScript: default comparator, i.e. UTF-16 code units. -/
def jsSortStrings (l : List String) : List String := sortLt jsStrLt l

/-- `Object.entries(filter).sort(([aKey], [bKey]) => aKey.localeCompare(bKey))`
from `_queryToCursor`: entries sorted by `localeCompare` on their keys. -/
def sortEntriesByLocale {β : Type} (l : List (String × β)) : List (String × β) :=
  sortLt (fun p q => localeLt p.1 q.1) l

/-- `indexKeys.sort().join('+')` from `createIndex`: the standard-format
RethinkDB index name derived from a set of property keys. -/
def rethinkIndexNameOf (indexKeys : List String) : String :=
  String.intercalate "+" (jsSortStrings indexKeys)

/-- A value of a deep-match map: a literal or a regular-expression object. -/
inductive MatchVal where
  | lit (v : Value)
  | regex (pattern : String) (flags : String)
deriving Repr

/-- A deep-match map (`queryPt.filter`, a `whereOr`/`whereAnd` alternative...):
property paths bound to literals or regexes, in insertion order. -/
abbrev MatchMap := List (String × MatchVal)

/-- `Object.keys(queryPt.filter).sort().join('+')` from `_queryToCursor`: the
candidate index name of a filter operation. -/
def filterIndexName (f : MatchMap) : String := rethinkIndexNameOf (f.map Prod.fst)

/-- The values handed to the index lookup by the filter branch of
`_queryToCursor`: entries sorted by `localeCompare` on keys, then projected. -/
def sortedFilterValues (f : MatchMap) : List MatchVal :=
  (sortEntriesByLocale f).map Prod.snd

/-- The argument of the `elem` query operation: a scalar (compared with `eq`)
or a deep-match map (`typeof queryPt.filter !== 'object'` dispatch). -/
inductive ElemFilter where
  | scalar (v : Value)
  | map (m : MatchMap)
deriving Repr

/-- ReQL predicate terms produced by the translation engine.  `rmatch` is the
regex `match` operation, `dflt` is `.default(v)`, `bracket` is field selection
`base(field)`, `orN`/`andN` are the variadic `R.or`/`R.and`, and `alwaysTrue`
is the empty filter object `{}` returned by `deepMatch` for an empty map. -/
inductive RTerm where
  | row
  | bracket (base : RTerm) (field : String)
  | dflt (base : RTerm) (v : Value)
  | eqT (base : RTerm) (v : Value)
  | neT (base : RTerm) (v : Value)
  | gtT (base : RTerm) (v : Value)
  | ltT (base : RTerm) (v : Value)
  | geT (base : RTerm) (v : Value)
  | leT (base : RTerm) (v : Value)
  | rmatch (base : RTerm) (pattern : String)
  | andT (a b : RTerm)
  | orN (args : List RTerm)
  | andN (args : List RTerm)
  | containsMatch (base : RTerm) (efilter : ElemFilter)
  | alwaysTrue
deriving Repr

/-- `regexToGoodString` from `rethink.js`, on a regex given as pattern and
flags: re-emit the pattern with inline flag syntax when flags are present. -/
def regexToGoodString (pattern flags : String) : String :=
  (if flags.length > 0 then "(?" ++ flags ++ ")" else "") ++ pattern

/-- The identity-field swap applied by `dotPropRethinkKey` to the first
segment of a dot path: `id` and `_id` are exchanged. -/
def swapIdSeg (s : String) : String :=
  if s = "id" then "_id" else if s = "_id" then "id" else s

/-- `dotPropRethinkKey` from `rethink.js`: split the key on dots, swap
`id`/`_id` on the first segment, and chain bracket selections starting from
the initial cursor (defaulting to `R.row`). -/
def dotPropKey (key : String) (initialCursor : Option RTerm) : RTerm :=
  match jsSplitDot key with
  | [] => RTerm.row
  | p :: ps =>
      let base := RTerm.bracket (match initialCursor with | some c => c | none => RTerm.row) (swapIdSeg p)
      ps.foldl RTerm.bracket base

/-- `deepMatch` from `rethink.js`: one predicate per entry (regex values use
`match` on the raw accessor, literal values use `eq` on the accessor with a
`.default(null)` fallback), combined as `newPart.and(accumulated)`; an empty
map yields the empty filter object `{}` (kept as `alwaysTrue`). -/
def deepMatch (m : MatchMap) (initialCursor : Option RTerm) : RTerm :=
  let final := m.foldl (fun acc kv =>
    let part := match kv.2 with
      | .regex p fl => RTerm.rmatch (dotPropKey kv.1 initialCursor) (regexToGoodString p fl)
      | .lit v => RTerm.eqT (RTerm.dflt (dotPropKey kv.1 initialCursor) Value.vnull) v
    some (match acc with | none => part | some a => RTerm.andT part a)) none
  match final with
  | some t => t
  | none => RTerm.alwaysTrue

/-- The per-plug index registry `this._indexes`: collection id to the set of
registered RethinkDB index names, in insertion order. -/
abbrev Registry := List (String × List String)

/-- `this._indexes.get(collectionId)`. -/
def regGet (indexes : Registry) (coll : String) : Option (List String) :=
  match indexes with
  | [] => none
  | (c, names) :: rest => if c = coll then some names else regGet rest coll

/-- `this._indexes.has(collectionId) && this._indexes.get(collectionId).has(name)`. -/
def hasIndexReg (indexes : Registry) (coll name : String) : Bool :=
  match regGet indexes coll with
  | some names => names.contains name
  | none => false

/-- The registry update performed by `createIndex`: create a singleton set for
a fresh collection id, otherwise add the name to the existing set. -/
def regAdd (indexes : Registry) (coll name : String) : Registry :=
  match regGet indexes coll with
  | none => indexes ++ [(coll, [name])]
  | some names =>
      let names2 := if names.contains name then names else names ++ [name]
      indexes.map (fun p => if p.1 = coll then (coll, names2) else p)

/-- Generic query operations, the tagged variants dispatched on `queryPt.type`
by `_queryToCursor`.  `unsupported tag` stands for any type tag that matches
none of the branches of the dispatch chain (which, in this revision of the
file, includes the tag `whereEquals`). -/
inductive QueryPt where
  | filter (filter : MatchMap)
  | elem (arrKey : String) (efilter : ElemFilter)
  | ne (key : String) (val : Value)
  | nin (key : String) (vals : List Value)
  | inQ (key : String) (vals : List Value)
  | whereOr (alts : List MatchMap)
  | whereAnd (alts : List MatchMap)
  | limit (limitAmount : Nat)
  | skip (skipAmount : Nat)
  | sort (sortKey : String) (desc : Bool)
  | gt (key : String) (min : Value)
  | lt (key : String) (max : Value)
  | gte (key : String) (min : Value)
  | lte (key : String) (max : Value)
  | unsupported (tag : String)
deriving Repr

/-- Arguments of a native `getAll`: a single value, an array of values (the
composite-index case), or a spread `R.args(vals)` (the indexed `in` case). -/
inductive GetAllArgs where
  | one (v : MatchVal)
  | many (vs : List MatchVal)
  | spread (vs : List Value)
deriving Repr

/-- ReQL cursor expressions produced by the translation engine. -/
inductive Cursor where
  | table (name : String)
  | filter (base : Cursor) (pred : RTerm)
  | getAll (base : Cursor) (args : GetAllArgs) (index : String)
  | limit (base : Cursor) (n : Nat)
  | skip (base : Cursor) (n : Nat)
  | orderByKey (base : Cursor) (desc : Bool) (key : RTerm)
  | orderByIndex (base : Cursor) (desc : Bool) (index : String)
deriving Repr

/-- Translation state of `_queryToCursor`: the cursor built so far and the
`cursorIsTable` flag, which is true only before any operation is applied. -/
structure TransState where
  cursor : Cursor
  cursorIsTable : Bool
deriving Repr

/-- The `values.length === 1` dispatch of the filter branch: a single sorted
value is passed bare, otherwise the sorted values are passed as an array. -/
def getAllArgsOf (f : MatchMap) : GetAllArgs :=
  match sortedFilterValues f with
  | [v] => GetAllArgs.one v
  | vs => GetAllArgs.many vs

/-- One iteration of the query-part loop of `_queryToCursor`: apply a query
operation to the translation state.  The `cursorIsTable` flag is cleared
unconditionally at the end of every iteration, including for unsupported
tags, which fall through the dispatch chain leaving the cursor unchanged. -/
def applyPt (indexes : Registry) (collectionId : String) (st : TransState) (pt : QueryPt) :
    TransState :=
  { cursor :=
      match pt with
      | .filter f =>
          let rethinkIndexName := filterIndexName f
          if st.cursorIsTable && hasIndexReg indexes collectionId rethinkIndexName then
            Cursor.getAll st.cursor (getAllArgsOf f) rethinkIndexName
          else
            Cursor.filter st.cursor (deepMatch f none)
      | .elem arrKey efilter =>
          Cursor.filter st.cursor (RTerm.containsMatch (dotPropKey arrKey none) efilter)
      | .ne key val =>
          Cursor.filter st.cursor (RTerm.neT (RTerm.dflt (dotPropKey key none) Value.vnull) val)
      | .nin key vals =>
          vals.foldl (fun c val =>
            Cursor.filter c (RTerm.neT (RTerm.dflt (dotPropKey key none) Value.vnull) val)) st.cursor
      | .inQ key vals =>
          if st.cursorIsTable && hasIndexReg indexes collectionId key then
            Cursor.getAll st.cursor (GetAllArgs.spread vals) key
          else
            match vals.map (fun val => deepMatch [(key, MatchVal.lit val)] none) with
            | [] => st.cursor
            | [f1] => Cursor.filter st.cursor f1
            | fs => Cursor.filter st.cursor (RTerm.orN fs)
      | .whereOr alts =>
          match alts.map (fun m => deepMatch m none) with
          | [] => st.cursor
          | [f1] => Cursor.filter st.cursor f1
          | fs => Cursor.filter st.cursor (RTerm.orN fs)
      | .whereAnd alts =>
          match alts.map (fun m => deepMatch m none) with
          | [] => st.cursor
          | [f1] => Cursor.filter st.cursor f1
          | fs => Cursor.filter st.cursor (RTerm.andN fs)
      | .limit n => Cursor.limit st.cursor n
      | .skip n => Cursor.skip st.cursor n
      | .sort key desc =>
          if st.cursorIsTable && hasIndexReg indexes collectionId key then
            Cursor.orderByIndex st.cursor desc key
          else
            Cursor.orderByKey st.cursor desc (dotPropKey key none)
      | .gt key v => Cursor.filter st.cursor (RTerm.gtT (dotPropKey key none) v)
      | .lt key v => Cursor.filter st.cursor (RTerm.ltT (dotPropKey key none) v)
      | .gte key v => Cursor.filter st.cursor (RTerm.geT (dotPropKey key none) v)
      | .lte key v => Cursor.filter st.cursor (RTerm.leT (dotPropKey key none) v)
      | .unsupported _ => st.cursor,
    cursorIsTable := false }

/-- The initial translation state: the raw table cursor. -/
def initState (collectionId : String) : TransState :=
  { cursor := Cursor.table collectionId, cursorIsTable := true }

/-- Run the query-part loop over a list of operations. -/
def runPts (indexes : Registry) (collectionId : String) (pts : List QueryPt) : TransState :=
  pts.foldl (applyPt indexes collectionId) (initState collectionId)

/-- A query descriptor: the ordered sequence `query.pts`. -/
structure Query where
  pts : List QueryPt
deriving Repr

/-- `_queryToCursor(collectionId, query)`: translate a query descriptor into a
ReQL cursor starting from the raw table. -/
def queryToCursor (indexes : Registry) (collectionId : String) (q : Query) : Cursor :=
  (runPts indexes collectionId q.pts).cursor

/-- Result of evaluating a ReQL term against a document: a value, a
non-existence error (caught by `.default` and treated as a skip by `filter`),
or any other error.  `err` also covers the corners of ReQL whose semantics
this development does not model (regex matching, `contains` lambdas, and
comparisons on non-numbers); no claim below depends on those corners. -/
inductive EvalRes where
  | ok (v : Value)
  | nonexist
  | err
deriving Repr

/-- ReQL truthiness: everything except `false` and `null` counts as true. -/
def truthy : Value → Bool
  | .vnull => false
  | .vbool false => false
  | _ => true

mutual

/-- Evaluate a ReQL predicate term against the current row binding. -/
def evalTerm : RTerm → Value → EvalRes
  | .row, row => .ok row
  | .bracket b f, row =>
      match evalTerm b row with
      | .ok (.vobj d) =>
          match jsGet f d with
          | some v => .ok v
          | none => .nonexist
      | .ok _ => .err
      | e => e
  | .dflt b v, row =>
      match evalTerm b row with
      | .ok .vnull => .ok v
      | .nonexist => .ok v
      | r => r
  | .eqT b v, row =>
      match evalTerm b row with
      | .ok x => .ok (.vbool (Value.beq x v))
      | e => e
  | .neT b v, row =>
      match evalTerm b row with
      | .ok x => .ok (.vbool (!Value.beq x v))
      | e => e
  | .gtT b v, row =>
      match evalTerm b row with
      | .ok (.vint a) => match v with | .vint m => .ok (.vbool (decide (m < a))) | _ => .err
      | .ok _ => .err
      | e => e
  | .ltT b v, row =>
      match evalTerm b row with
      | .ok (.vint a) => match v with | .vint m => .ok (.vbool (decide (a < m))) | _ => .err
      | .ok _ => .err
      | e => e
  | .geT b v, row =>
      match evalTerm b row with
      | .ok (.vint a) => match v with | .vint m => .ok (.vbool (decide (m ≤ a))) | _ => .err
      | .ok _ => .err
      | e => e
  | .leT b v, row =>
      match evalTerm b row with
      | .ok (.vint a) => match v with | .vint m => .ok (.vbool (decide (a ≤ m))) | _ => .err
      | .ok _ => .err
      | e => e
  | .rmatch _ _, _ => .err
  | .containsMatch _ _, _ => .err
  | .andT a b, row =>
      match evalTerm a row with
      | .ok va => if truthy va then evalTerm b row else .ok va
      | e => e
  | .orN args, row => evalOrList args row
  | .andN args, row => evalAndList args row
  | .alwaysTrue, _ => .ok (.vbool true)

/-- `R.or(...)`: the value of the first truthy argument, otherwise the value
of the last argument, evaluated left to right. -/
def evalOrList : List RTerm → Value → EvalRes
  | [], _ => .ok (.vbool false)
  | [t], row => evalTerm t row
  | t :: ts, row =>
      match evalTerm t row with
      | .ok v => if truthy v then .ok v else evalOrList ts row
      | e => e

/-- `R.and(...)`: the value of the first falsy argument, otherwise the value
of the last argument, evaluated left to right. -/
def evalAndList : List RTerm → Value → EvalRes
  | [], _ => .ok (.vbool true)
  | [t], row => evalTerm t row
  | t :: ts, row =>
      match evalTerm t row with
      | .ok v => if truthy v then evalAndList ts row else .ok v
      | e => e

end

/-- Whether `filter` keeps a document under a predicate term: kept on a truthy
value, skipped on a falsy value or a non-existence error (ReQL's default skip
behaviour), and `none` when the query errors. -/
def filterKeep (t : RTerm) (d : Doc) : Option Bool :=
  match evalTerm t (Value.vobj d) with
  | .ok v => some (truthy v)
  | .nonexist => some false
  | .err => none

/-- Run a filter predicate over a list of documents, propagating errors. -/
def filterDocs (t : RTerm) : List Doc → Option (List Doc)
  | [] => some []
  | d :: ds =>
      match filterKeep t d, filterDocs t ds with
      | some b, some rest => some (if b then d :: rest else rest)
      | _, _ => none

/-- Observable result of a translated cursor on a table of documents, in table
order.  Index lookups (`getAll`) and orderings are outside the modelled
fragment (no claim depends on their result sets), so they yield `none`. -/
def evalCursor (tbl : List Doc) : Cursor → Option (List Doc)
  | .table _ => some tbl
  | .filter base pred =>
      match evalCursor tbl base with
      | some docs => filterDocs pred docs
      | none => none
  | .getAll _ _ _ => none
  | .limit base n => (evalCursor tbl base).map (fun docs => docs.take n)
  | .skip base n => (evalCursor tbl base).map (fun docs => docs.drop n)
  | .orderByKey _ _ _ => none
  | .orderByIndex _ _ _ => none

/-- The value of property `key`, with a missing property read as `null` (the
comparison semantics stipulated for deep-match literals). -/
def lookupOrNull (key : String) (d : Doc) : Value :=
  match jsGet key d with
  | some v => v
  | none => Value.vnull

/-- Backend (driver-level) errors surfaced by RethinkDB calls. -/
inductive RErr where
  | indexExists
  | opFailed (msg : String)
deriving Repr, DecidableEq

/-- Outcome of one backend call. -/
abbrev RResult := Except RErr Unit

/-- `try { indexCreate ... } catch (err) { }` from `createIndex`: the catch
clause is empty and unconditional, so every error of the create call is
discarded. -/
def createAttempt (createRes : RResult) : RResult :=
  match createRes with
  | .ok _ => .ok ()
  | .error _ => .ok ()

/-- `createIndex(collectionId, name, indexes)` from `rethink.js`, abstracted
over the outcomes of its two backend calls (`indexCreate` and `indexWait`):
derive the sorted-join index name, register it immediately, run the guarded
create attempt, then await the index build; the overall outcome is the pair
of the updated registry and the error outcome propagated to the caller. -/
def createIndexModel (indexes : Registry) (collectionId : String) (indexKeys : List String)
    (createRes : RResult) (waitRes : RResult) : Registry × RResult :=
  let rethinkIndexName := rethinkIndexNameOf indexKeys
  let indexes2 := regAdd indexes collectionId rethinkIndexName
  (indexes2,
    match createAttempt createRes with
    | .ok _ => waitRes
    | .error e => .error e)

mutual

/-- RethinkDB `update` merge of two values: objects merge recursively by key,
anything else is replaced by the new value (JSON `null` is stored as a value;
removing a field needs `replace`/`without`, which `update` cannot express). -/
def mergeVal (old new : Value) : Value :=
  match old, new with
  | .vobj o, .vobj n => .vobj (mergeFields o n)
  | _, b => b

/-- RethinkDB `update` merge of field lists, new fields applied in order. -/
def mergeFields (old : Doc) (news : Doc) : Doc :=
  match news with
  | [] => old
  | (k, v) :: rest =>
      let newItem := match jsGet k old with
        | some ov => mergeVal ov v
        | none => v
      mergeFields (jsSet k newItem old) rest

end

/-- JavaScript `Set` built from a list: deduplicate keeping first occurrences. -/
def dedupKeepFirst (l : List String) : List String :=
  l.foldl (fun acc x => if acc.contains x then acc else acc ++ [x]) []

/-- `new Set(Array.from(updates).map(update => update.split('.')[0]))` from
`updateById`: changed keys reduced to their top-level path segment. -/
def topLevelUpdates (updates : List String) : List String :=
  dedupKeepFirst (updates.map (fun u => (jsSplitDot u).headD ""))

/-- JavaScript loose test `newObject[updatedKey] != undefined` is FALSE when:
the key is absent (`undefined`) or the key is bound to `null` (loose
equality conflates the two). -/
def isLooseUndef : Option Value → Bool
  | none => true
  | some v => Value.beq v .vnull

/-- `updateById(collectionId, id, newObject, updates)` from `rethink.js`, as a
transformer of the stored document with the given id: for each top-level
changed key failing the loose-undefined test a `replace(R.row.without(key))`
removal is issued, and afterwards one `update(...)` call merges the id-swapped
`newObject` (NOT the `replaceObject` the function builds and never uses) with
the native key forced to the record id. -/
def updateByIdEffect (id : Value) (newObject : Doc) (updates : List String)
    (stored : Doc) : Doc :=
  let tops := topLevelUpdates updates
  let afterRemovals := tops.foldl
    (fun d k => if isLooseUndef (jsGet k newObject) then jsDelete k d else d) stored
  let swappedReplaceObject := jsSet "id" id (swapKeys "id" "_id" newObject)
  mergeFields afterRemovals swappedReplaceObject

/-- The `replaceObject` that `updateById` builds from the changed keys and then
never uses: only changed top-level keys passing the loose-undefined test, with
their values from `newObject`.  Kept here as the documented intent the final
`update` call ignores. -/
def replaceObjectOf (newObject : Doc) (updates : List String) : Doc :=
  (topLevelUpdates updates).foldl
    (fun acc k =>
      match jsGet k newObject with
      | some v => if Value.beq v .vnull then acc else acc ++ [(k, v)]
      | none => acc) []

/-- Program position of one `initCollection` caller: `start` is before the
synchronous `_preparedTables.has` check (line 571), which is immediately
followed by the suspension on `await this._building` (line 573); `resumed`
is after that await, about to run `_preparedTables.set(...)` (line 576),
which synchronously registers the readiness future and starts one backend
creation closure; `done` is after returning. -/
inductive InitPc where
  | start
  | resumed
  | done
deriving Repr, DecidableEq

/-- Interleaving state of two concurrent `initCollection` calls for the same
collection id: whether `_preparedTables` has the entry, how many creation
closures have been started, and each caller's position. -/
structure InitRace where
  hasEntry : Bool
  attempts : Nat
  pcA : InitPc
  pcB : InitPc
deriving Repr

/-- Which of the two concurrent callers runs its next atomic segment.  Atomic
segments end exactly at `await` suspension points, matching the JavaScript
run-to-completion model. -/
inductive Caller where
  | A
  | B
deriving Repr, DecidableEq

/-- Run the next atomic segment of the given caller: from `start`, perform the
memoization check and either return (entry present) or suspend on the build
await; from `resumed`, set the readiness future (making the entry present)
and start a backend creation closure. -/
def stepInit (s : InitRace) (t : Caller) : InitRace :=
  match t with
  | .A =>
      match s.pcA with
      | .start => if s.hasEntry then { s with pcA := .done } else { s with pcA := .resumed }
      | .resumed => { s with hasEntry := true, attempts := s.attempts + 1, pcA := .done }
      | .done => s
  | .B =>
      match s.pcB with
      | .start => if s.hasEntry then { s with pcB := .done } else { s with pcB := .resumed }
      | .resumed => { s with hasEntry := true, attempts := s.attempts + 1, pcB := .done }
      | .done => s

/-- Run a schedule (an interleaving) of the two callers' atomic segments. -/
def runInitSched (s : InitRace) (sched : List Caller) : InitRace :=
  sched.foldl stepInit s

/-- Initial state: no readiness entry, no creation attempt, both calls about
to run. -/
def initRace0 : InitRace :=
  { hasEntry := false, attempts := 0, pcA := .start, pcB := .start }


mutual

/-- Structural equality is reflexive. -/
theorem Value.beq_refl : (v : Value) → Value.beq v v = true
  | .vnull => rfl
  | .vstr a => by simp [Value.beq]
  | .vint a => by simp [Value.beq]
  | .vbool a => by simp [Value.beq]
  | .vobj a => by simpa [Value.beq] using beqFields_refl a
  | .varr a => by simpa [Value.beq] using beqElems_refl a

/-- Field-list structural equality is reflexive. -/
theorem beqFields_refl : (d : List (String × Value)) → beqFields d d = true
  | [] => rfl
  | (k, v) :: r => by
      simp only [beqFields, Bool.and_eq_true, beq_self_eq_true, true_and]
      exact ⟨Value.beq_refl v, beqFields_refl r⟩

/-- Element-list structural equality is reflexive. -/
theorem beqElems_refl : (d : List Value) → beqElems d d = true
  | [] => rfl
  | v :: r => by
      simp only [beqElems, Bool.and_eq_true]
      exact ⟨Value.beq_refl v, beqElems_refl r⟩

end

/-- Optional structural equality is reflexive. -/
theorem obeq_refl (o : Option Value) : obeq o o = true := by
  cases o with
  | none => rfl
  | some v => simpa [obeq] using Value.beq_refl v

/-- Structural equality against `null` holds exactly for `null`. -/
theorem Value.beq_vnull_iff (v : Value) : Value.beq v .vnull = true ↔ v = .vnull := by
  cases v <;> simp [Value.beq]

/-- Truthiness of a boolean value is the boolean itself. -/
theorem truthy_vbool (b : Bool) : truthy (.vbool b) = b := by cases b <;> rfl

/-- Reading through a deletion: the deleted key is gone, others unchanged. -/
theorem jsGet_jsDelete (k k2 : String) (d : Doc) :
    jsGet k (jsDelete k2 d) = if k = k2 then none else jsGet k d := by
  induction d with
  | nil => simp [jsDelete, jsGet]
  | cons p rest ih =>
      obtain ⟨pk, pv⟩ := p
      by_cases h1 : pk = k2 <;> by_cases h2 : k = k2 <;>
        simp_all [jsDelete, jsGet] <;> rw [if_neg fun h => h2 h.symm]

/-- A lookup finds nothing exactly when the object has no such key. -/
theorem jsGet_eq_none_iff (k : String) (d : Doc) :
    jsGet k d = none ↔ hasKey k d = false := by
  induction d with
  | nil => simp [jsGet, hasKey]
  | cons p rest ih =>
      obtain ⟨pk, pv⟩ := p
      by_cases h : pk = k <;> simp_all [jsGet, hasKey]

/-- Reading an appended list looks left first. -/
theorem jsGet_append_of_none (k : String) (d1 d2 : Doc) (h : jsGet k d1 = none) :
    jsGet k (d1 ++ d2) = jsGet k d2 := by
  induction d1 with
  | nil => rfl
  | cons p rest ih =>
      obtain ⟨pk, pv⟩ := p
      by_cases hp : pk = k <;> simp_all [jsGet]

/-- Reading an appended list returns a left hit unchanged. -/
theorem jsGet_append_of_some (k : String) (v : Value) (d1 d2 : Doc)
    (h : jsGet k d1 = some v) : jsGet k (d1 ++ d2) = some v := by
  induction d1 with
  | nil => simp [jsGet] at h
  | cons p rest ih =>
      obtain ⟨pk, pv⟩ := p
      by_cases hp : pk = k <;> simp_all [jsGet]

/-- The in-place pass of a write leaves other keys alone. -/
theorem jsGet_setPresent_ne (k k2 : String) (v : Value) (d : Doc) (hk : k ≠ k2) :
    jsGet k (setPresent k2 v d) = jsGet k d := by
  induction d with
  | nil => rfl
  | cons p rest ih =>
      obtain ⟨pk, pv⟩ := p
      by_cases hp : pk = k2 <;> by_cases hpk : pk = k <;>
        simp_all [jsGet, setPresent]

/-- The in-place pass of a write rebinds a present key. -/
theorem jsGet_setPresent_eq (k2 : String) (v : Value) (d : Doc)
    (hany : hasKey k2 d = true) :
    jsGet k2 (setPresent k2 v d) = some v := by
  induction d with
  | nil => simp [hasKey] at hany
  | cons p rest ih =>
      obtain ⟨pk, pv⟩ := p
      by_cases hp : pk = k2 <;> simp_all [jsGet, setPresent, hasKey]

/-- Reading through a write: the written key returns the new value, other
keys are unchanged. -/
theorem jsGet_jsSet (k k2 : String) (v : Value) (d : Doc) :
    jsGet k (jsSet k2 v d) = if k = k2 then some v else jsGet k d := by
  unfold jsSet
  by_cases hany : hasKey k2 d = true
  · rw [if_pos hany]
    by_cases hk : k = k2
    · subst hk
      rw [if_pos rfl, jsGet_setPresent_eq k v d hany]
    · rw [if_neg hk, jsGet_setPresent_ne k k2 v d hk]
  · rw [if_neg hany]
    by_cases hk : k = k2
    · subst hk
      have hnone : jsGet k d = none := (jsGet_eq_none_iff k d).2 (by simpa using hany)
      rw [if_pos rfl, jsGet_append_of_none k d _ hnone]
      simp [jsGet]
    · rw [if_neg hk]
      rcases hd : jsGet k d with _ | w
      · rw [jsGet_append_of_none k d _ hd]
        simp [jsGet, Ne.symm hk]
      · exact jsGet_append_of_some k w d _ hd

/-- Reading through `swapKeys`: each of the two swapped keys reports the other
key's original value filtered through the loose-null guard, all other keys are
untouched. -/
theorem jsGet_swapKeys (k k1 k2 : String) (d : Doc) (h12 : k1 ≠ k2) :
    jsGet k (swapKeys k1 k2 d) =
      if k = k2 then nonNullOpt (jsGet k1 d)
      else if k = k1 then nonNullOpt (jsGet k2 d)
      else jsGet k d := by
  unfold swapKeys
  rcases h1 : jsGet k1 d with _ | v1 <;> rcases h2 : jsGet k2 d with _ | v2 <;>
    simp only [nonNullOpt]
  · simp [jsGet_jsDelete, h1, h2]
  · rcases hb2 : Value.beq v2 .vnull <;>
      simp [jsGet_jsSet, jsGet_jsDelete, h1, h2, hb2] <;> split_ifs <;> simp_all
  · rcases hb1 : Value.beq v1 .vnull <;>
      simp [jsGet_jsSet, jsGet_jsDelete, h1, h2, hb1, h12] <;> split_ifs <;> simp_all
  · rcases hb1 : Value.beq v1 .vnull <;> rcases hb2 : Value.beq v2 .vnull <;>
      simp [jsGet_jsSet, jsGet_jsDelete, h1, h2, hb1, hb2, h12, Ne.symm h12] <;>
      split_ifs <;> simp_all

/-- Documents with identical lookups everywhere are deep-equal. -/
theorem docEqv_of_lookup_eq (d1 d2 : Doc) (h : ∀ k, jsGet k d1 = jsGet k d2) :
    docEqv d1 d2 = true := by
  unfold docEqv
  rw [Bool.and_eq_true]
  constructor <;> rw [List.all_eq_true] <;> intro p hp <;> rw [h p.1] <;> exact obeq_refl _

/-- C10: the key swap used by the codec (on insert, replaceById, updateById and
decode) silently drops a null-valued `id` or `_id` binding: the deleted key's
null value is never restored under the other name, and when both identity
bindings are null the swapped object carries neither key. -/
theorem c10_null_id_dropped (d : Doc) :
    (jsGet "id" d = some Value.vnull → jsGet "_id" (swapKeys "id" "_id" d) = none) ∧
    (jsGet "_id" d = some Value.vnull → jsGet "id" (swapKeys "id" "_id" d) = none) ∧
    (jsGet "id" d = some Value.vnull → jsGet "_id" d = some Value.vnull →
      jsGet "id" (swapKeys "id" "_id" d) = none ∧
        jsGet "_id" (swapKeys "id" "_id" d) = none) := by
  have hne : ("id" : String) ≠ "_id" := by decide
  refine ⟨fun h => ?_, fun h => ?_, fun h h2 => ⟨?_, ?_⟩⟩ <;>
    rw [jsGet_swapKeys _ _ _ _ hne] <;> simp_all [nonNullOpt, Value.beq]

/-- Witness for C10 at concrete inputs. -/
theorem c10_witness :
    jsGet "_id" (swapKeys "id" "_id" [("id", Value.vnull), ("x", Value.vint 1)]) = none ∧
    jsGet "id" (swapKeys "id" "_id" [("id", Value.vnull), ("_id", Value.vnull)]) = none :=
  ⟨(c10_null_id_dropped [("id", Value.vnull), ("x", Value.vint 1)]).1 rfl,
   (c10_null_id_dropped [("id", Value.vnull), ("_id", Value.vnull)]).2.2 rfl rfl |>.1⟩

/-- C2 counterexample: the record with id "x" and object containing a
null-valued generic `id` key satisfies the claim's hypothesis (its object has
no `_id` binding), yet decoding its encoding loses the `id` binding, so the
round trip is not the identity. -/
theorem c2_roundtrip_counterexample :
    jsGet "_id" [("id", Value.vnull)] = none ∧
    handleRawModel (some (encodeRecord (Value.vstr "x") [("id", Value.vnull)])) =
      some { id := some (Value.vstr "x"), object := [] } ∧
    docEqv [] [("id", Value.vnull)] = false :=
  ⟨rfl, rfl, rfl⟩

/-- C2 (amended): decoding the encoding of a record with a string id is the
original record (object compared as a JavaScript object, i.e. up to binding
order) provided the object neither contains the reserved native key `_id` nor
binds the generic key `id` to `null` (the swap drops null bindings, see C10). -/
theorem c2_roundtrip_amended (s : String) (object : Doc)
    (h1 : jsGet "_id" object = none)
    (h2 : jsGet "id" object ≠ some Value.vnull) :
    ∃ rec, handleRawModel (some (encodeRecord (Value.vstr s) object)) = some rec ∧
      rec.id = some (Value.vstr s) ∧ docEqv rec.object object = true := by
  have hne : ("id" : String) ≠ "_id" := by decide
  have hne2 : ("_id" : String) ≠ "id" := by decide
  have hencid : jsGet "id" (encodeRecord (Value.vstr s) object) = some (Value.vstr s) := by
    unfold encodeRecord
    rw [jsGet_jsSet]
    simp
  have hencnid : jsGet "_id" (encodeRecord (Value.vstr s) object) =
      nonNullOpt (jsGet "id" object) := by
    unfold encodeRecord
    rw [jsGet_jsSet, if_neg hne2, jsGet_swapKeys _ _ _ _ hne, if_pos rfl]
  have hencother : ∀ k, k ≠ "id" → k ≠ "_id" →
      jsGet k (encodeRecord (Value.vstr s) object) = jsGet k object := by
    intro k hk1 hk2
    unfold encodeRecord
    rw [jsGet_jsSet, if_neg hk1, jsGet_swapKeys _ _ _ _ hne, if_neg hk2, if_neg hk1]
  refine ⟨_, rfl, ?_, ?_⟩
  · show jsGet "_id" (swapKeys "id" "_id" (encodeRecord (Value.vstr s) object)) =
      some (Value.vstr s)
    rw [jsGet_swapKeys _ _ _ _ hne, if_pos rfl, hencid]
    simp [nonNullOpt, Value.beq]
  · apply docEqv_of_lookup_eq
    intro k
    show jsGet k (jsDelete "_id" (swapKeys "id" "_id" (encodeRecord (Value.vstr s) object))) =
      jsGet k object
    rw [jsGet_jsDelete]
    by_cases hk2 : k = "_id"
    · rw [if_pos hk2, hk2] at *
      exact h1.symm
    · rw [if_neg hk2, jsGet_swapKeys _ _ _ _ hne, if_neg hk2]
      by_cases hk1 : k = "id"
      · rw [if_pos hk1, hencnid, hk1]
        rcases ho : jsGet "id" object with _ | v
        · simp [nonNullOpt]
        · have hvne : Value.beq v .vnull = false := by
            rcases hb : Value.beq v .vnull
            · rfl
            · exact absurd (ho.trans (by rw [(Value.beq_vnull_iff v).1 hb])) h2
          simp [nonNullOpt, hvne]
      · rw [if_neg hk1]
        exact hencother k hk1 hk2

/-- Witness for C2 (amended) at a concrete record. -/
theorem c2_witness :
    ∃ rec, handleRawModel (some (encodeRecord (Value.vstr "x") [("a", Value.vint 1)])) =
        some rec ∧
      rec.id = some (Value.vstr "x") ∧ docEqv rec.object [("a", Value.vint 1)] = true :=
  c2_roundtrip_amended "x" [("a", Value.vint 1)] rfl (fun h => by simp [jsGet] at h)

/-- C5 counterexample: a non-conflict backend error (a network failure) raised
by the index-creation call is caught and discarded - `createIndex` then
reports success when the subsequent wait succeeds, instead of propagating the
creation error. -/
theorem c5_swallow_counterexample :
    (createIndexModel [] "orders" ["a"]
        (Except.error (RErr.opFailed "network")) (Except.ok ())).2 = Except.ok () :=
  rfl

/-- C5 (amended): the empty `catch` around the creation call discards every
backend error of that call, conflict or not; the overall outcome of
`createIndex` is exactly the outcome of the index-build wait, which is always
performed and whose errors propagate unmodified.  The derived sorted-join name
is registered either way. -/
theorem c5_create_errors_discarded_wait_propagates (indexes : Registry)
    (collectionId : String) (indexKeys : List String) (createRes waitRes : RResult) :
    createIndexModel indexes collectionId indexKeys createRes waitRes =
      (regAdd indexes collectionId (rethinkIndexNameOf indexKeys), waitRes) := by
  cases createRes <;> rfl

/-- C6 counterexample: a query consisting of one operation with the
unsupported tag `whereEquals` (this revision's dispatch chain has no branch
for it) translates without any error to the untouched raw table cursor - the
operation is silently dropped instead of failing fast. -/
theorem c6_unsupported_ignored_counterexample :
    queryToCursor [] "c" { pts := [QueryPt.unsupported "whereEquals"] } =
      Cursor.table "c" :=
  rfl

/-- C6 (amended): an operation whose tag matches no branch of the dispatch
chain is silently ignored: the translation step leaves the cursor unchanged
(and, like every step, clears the raw-table flag); translation never fails. -/
theorem c6_unsupported_is_noop (indexes : Registry) (collectionId : String)
    (st : TransState) (tag : String) :
    applyPt indexes collectionId st (QueryPt.unsupported tag) =
      { cursor := st.cursor, cursorIsTable := false } :=
  rfl

/-- C9: the interleaving in which both `initCollection` callers pass the
memoization check before either resumes from `await this._building` makes
both callers register a creation closure: two backend creation attempts are
started (and the second caller's future overwrites the first's in
`_preparedTables`), refuting the single-flight guarantee.  A fully sequential
duplicate call (second check after the first set) collapses to one attempt. -/
theorem c9_race_two_attempts :
    (runInitSched initRace0 [Caller.A, Caller.B, Caller.A, Caller.B]).attempts = 2 ∧
    (runInitSched initRace0 [Caller.A, Caller.B, Caller.A, Caller.B]).pcA = InitPc.done ∧
    (runInitSched initRace0 [Caller.A, Caller.B, Caller.A, Caller.B]).pcB = InitPc.done ∧
    (runInitSched initRace0 [Caller.A, Caller.A, Caller.B]).attempts = 1 :=
  ⟨rfl, rfl, rfl, rfl⟩

/-- C4: evaluation of `updateById` at the failing input - the stored document
has keys `a` and `b`, the new object has keys `a` and `c`, and only `a` is
named as changed; the final `update` call nevertheless writes `c` (because it
merges the whole id-swapped `newObject`, not the built-and-dropped
`replaceObject` of only changed keys), while the spec example (`b` undefined,
`a` changed) does produce removal of `b` and merge of `a`. -/
theorem c4_unnamed_key_merged :
    jsGet "c" [("a", Value.vint 0), ("b", Value.vint 9)] = none ∧
    jsGet "c" (updateByIdEffect (Value.vstr "i") [("a", Value.vint 1), ("c", Value.vint 2)]
      ["a"] [("a", Value.vint 0), ("b", Value.vint 9)]) = some (Value.vint 2) ∧
    replaceObjectOf [("a", Value.vint 1), ("c", Value.vint 2)] ["a"] = [("a", Value.vint 1)] ∧
    updateByIdEffect (Value.vstr "i") [("a", Value.vint 1)] ["a", "b"]
      [("a", Value.vint 0), ("b", Value.vint 9)] = [("a", Value.vint 1), ("id", Value.vstr "i")] :=
  ⟨rfl, rfl, rfl, rfl⟩

/-- Every translation step clears the raw-table flag. -/
theorem applyPt_cursorIsTable (indexes : Registry) (coll : String) (st : TransState)
    (pt : QueryPt) : (applyPt indexes coll st pt).cursorIsTable = false :=
  rfl

/-- After a non-empty run of translation steps the raw-table flag is off. -/
theorem foldl_applyPt_flag (indexes : Registry) (coll : String) (l : List QueryPt)
    (s : TransState) (h : l ≠ []) :
    (l.foldl (applyPt indexes coll) s).cursorIsTable = false := by
  induction l generalizing s with
  | nil => exact absurd rfl h
  | cons x xs ih =>
      cases xs with
      | nil => exact applyPt_cursorIsTable indexes coll s x
      | cons y ys => exact ih (applyPt indexes coll s x) (by simp)

/-- The filter branch of the translation step, as an equation: indexed lookup
exactly when the raw-table flag is on and the sorted-join candidate name is
registered, deep-match scan otherwise. -/
theorem applyPt_filter_eq (indexes : Registry) (coll : String) (st : TransState)
    (f : MatchMap) :
    applyPt indexes coll st (QueryPt.filter f) =
      if st.cursorIsTable && hasIndexReg indexes coll (filterIndexName f) then
        { cursor := Cursor.getAll st.cursor (getAllArgsOf f) (filterIndexName f),
          cursorIsTable := false }
      else
        { cursor := Cursor.filter st.cursor (deepMatch f none), cursorIsTable := false } := by
  unfold applyPt
  rcases h : st.cursorIsTable && hasIndexReg indexes coll (filterIndexName f) <;>
    simp only [h, if_false, if_true, Bool.false_eq_true, cond_false, cond_true] <;> rfl

/-- C1: a `filter` operation at position `i` of a query descriptor is
translated to an index-scoped `getAll` if and only if it is the first applied
operation (`i = 0`) and the registry holds an index named by the filter's
sorted keys joined with `+`; in every other case it becomes a full-scan
`filter` with the deep-match predicate over the cursor built so far. -/
theorem c1_filter_index_iff_first_and_registered (indexes : Registry) (coll : String)
    (pts : List QueryPt) (i : Nat) (f : MatchMap)
    (h : pts[i]? = some (QueryPt.filter f)) :
    applyPt indexes coll (runPts indexes coll (pts.take i)) (QueryPt.filter f) =
      if i = 0 ∧ hasIndexReg indexes coll (filterIndexName f) = true then
        { cursor := Cursor.getAll (Cursor.table coll) (getAllArgsOf f) (filterIndexName f),
          cursorIsTable := false }
      else
        { cursor := Cursor.filter (runPts indexes coll (pts.take i)).cursor (deepMatch f none),
          cursorIsTable := false } := by
  rcases i with _ | j
  · rw [List.take_zero]
    have hrun : runPts indexes coll [] = initState coll := rfl
    rw [hrun, applyPt_filter_eq]
    rcases hidx : hasIndexReg indexes coll (filterIndexName f)
    · simp [initState, hidx]
    · simp [initState, hidx]
  · have hlt : j + 1 < pts.length := by
      rcases List.getElem?_eq_some.1 h with ⟨hlt, _⟩
      exact hlt
    have hpts : pts ≠ [] := by
      intro hnil
      rw [hnil] at hlt
      simp at hlt
    have htake : pts.take (j + 1) ≠ [] := by
      intro hnil
      rcases List.take_eq_nil_iff.1 hnil with h0 | h0
      · exact Nat.succ_ne_zero j h0
      · exact hpts h0
    have hflag : (runPts indexes coll (pts.take (j + 1))).cursorIsTable = false :=
      foldl_applyPt_flag indexes coll _ _ htake
    rw [applyPt_filter_eq, hflag]
    simp

/-- Witness for C1 at a concrete query: a single-key filter in first position
with its index registered becomes the native indexed lookup. -/
theorem c1_witness :
    applyPt [("c", ["a"])] "c"
        (runPts [("c", ["a"])] "c"
          ([QueryPt.filter [("a", MatchVal.lit (Value.vint 1))]].take 0))
        (QueryPt.filter [("a", MatchVal.lit (Value.vint 1))]) =
      { cursor := Cursor.getAll (Cursor.table "c") (GetAllArgs.one (MatchVal.lit (Value.vint 1))) "a",
        cursorIsTable := false } := by
  have h := c1_filter_index_iff_first_and_registered [("c", ["a"])] "c"
    [QueryPt.filter [("a", MatchVal.lit (Value.vint 1))]] 0
    [("a", MatchVal.lit (Value.vint 1))] rfl
  rw [if_pos ⟨rfl, rfl⟩] at h
  exact h

/-- Projecting keys commutes with key-comparator insertion. -/
theorem insLt_map_fst {β : Type} (lt : String → String → Bool) (x : String × β)
    (l : List (String × β)) :
    (insLt (fun p q => lt p.1 q.1) x l).map Prod.fst = insLt lt x.1 (l.map Prod.fst) := by
  induction l with
  | nil => rfl
  | cons y ys ih =>
      simp only [insLt]
      by_cases h : lt x.1 y.1 = true
      · simp [h]
      · simp [h, ih]

/-- Projecting keys commutes with sorting entries by their keys. -/
theorem sortLt_map_fst {β : Type} (lt : String → String → Bool) (l : List (String × β)) :
    (sortLt (fun p q => lt p.1 q.1) l).map Prod.fst = sortLt lt (l.map Prod.fst) := by
  induction l with
  | nil => rfl
  | cons y ys ih =>
      simp only [sortLt, List.map_cons, List.foldr_cons] at *
      rw [insLt_map_fst, ih]

/-- Insertion produces a permutation of consing. -/
theorem insLt_perm {α : Type} (lt : α → α → Bool) (x : α) (l : List α) :
    (insLt lt x l).Perm (x :: l) := by
  induction l with
  | nil => exact List.Perm.refl _
  | cons y ys ih =>
      simp only [insLt]
      rcases h : lt x y
      · simp only [Bool.false_eq_true, if_false]
        exact (ih.cons y).trans (List.Perm.swap x y ys)
      · simp

/-- Sorting permutes the list. -/
theorem sortLt_perm {α : Type} (lt : α → α → Bool) (l : List α) :
    (sortLt lt l).Perm l := by
  induction l with
  | nil => exact List.Perm.refl _
  | cons y ys ih => exact (insLt_perm lt y _).trans (ih.cons y)

/-- Insertion is determined by how the comparator treats the inserted element
against the list members. -/
theorem insLt_congr {α : Type} (lt1 lt2 : α → α → Bool) (x : α) (l : List α)
    (h : ∀ b ∈ l, lt1 x b = lt2 x b) : insLt lt1 x l = insLt lt2 x l := by
  induction l with
  | nil => rfl
  | cons y ys ih =>
      simp only [insLt]
      rw [h y (by simp)]
      rcases h2 : lt2 x y
      · simp only [Bool.false_eq_true, if_false]
        rw [ih (fun b hb => h b (by simp [hb]))]
      · simp

/-- Two comparators that agree on all pairs of list members sort alike. -/
theorem sortLt_congr {α : Type} (lt1 lt2 : α → α → Bool) (l : List α)
    (h : ∀ a ∈ l, ∀ b ∈ l, lt1 a b = lt2 a b) : sortLt lt1 l = sortLt lt2 l := by
  induction l with
  | nil => rfl
  | cons y ys ih =>
      simp only [sortLt, List.foldr_cons] at *
      rw [ih (fun a ha b hb => h a (by simp [ha]) b (by simp [hb]))]
      apply insLt_congr
      intro b hb
      have hbmem : b ∈ ys := (sortLt_perm lt2 ys).mem_iff.1 hb
      exact h y (by simp) b (by simp [hbmem])

/-- C3 counterexample: for the filter with keys `a` and `B`, the index name is
derived with the default (code-unit) sort, giving `B+a`, but the values are
sorted with `localeCompare`, which under the default locale orders `a` before
`B`: the first value passed to `getAll` is the value of `a`, not of the
name's first key `B`. -/
theorem c3_value_order_counterexample :
    filterIndexName [("a", MatchVal.lit (Value.vint 1)), ("B", MatchVal.lit (Value.vint 2))] =
      "B+a" ∧
    (sortEntriesByLocale
        [("a", MatchVal.lit (Value.vint 1)), ("B", MatchVal.lit (Value.vint 2))]).map Prod.fst =
      ["a", "B"] ∧
    sortedFilterValues
        [("a", MatchVal.lit (Value.vint 1)), ("B", MatchVal.lit (Value.vint 2))] =
      [MatchVal.lit (Value.vint 1), MatchVal.lit (Value.vint 2)] :=
  ⟨by decide, by decide, rfl⟩

/-- C3 (amended): whenever the locale comparator agrees with the default
code-unit comparator on the filter's keys (in particular for all-lowercase
ASCII keys), the sequence of keys backing the `getAll` value order is exactly
the sorted key sequence joined into the index name, so the i-th value passed
corresponds to the i-th key of the index name. -/
theorem c3_values_follow_index_name_order (f : MatchMap)
    (hagree : ∀ a ∈ f.map Prod.fst, ∀ b ∈ f.map Prod.fst, localeLt a b = jsStrLt a b) :
    filterIndexName f = String.intercalate "+" ((sortEntriesByLocale f).map Prod.fst) := by
  unfold filterIndexName rethinkIndexNameOf jsSortStrings sortEntriesByLocale
  rw [sortLt_map_fst, sortLt_congr localeLt jsStrLt (f.map Prod.fst) hagree]

/-- Witness for C3 (amended) on an all-lowercase filter. -/
theorem c3_witness :
    filterIndexName [("b", MatchVal.lit (Value.vint 2)), ("a", MatchVal.lit (Value.vint 1))] =
      String.intercalate "+"
        ((sortEntriesByLocale
          [("b", MatchVal.lit (Value.vint 2)), ("a", MatchVal.lit (Value.vint 1))]).map Prod.fst) :=
  c3_values_follow_index_name_order _ (by decide)

/-- A dot-free, non-identity key resolves to a plain row field selection. -/
theorem dotPropKey_single (key : String) (hsplit : jsSplitDot key = [key])
    (h1 : key ≠ "id") (h2 : key ≠ "_id") :
    dotPropKey key none = RTerm.bracket RTerm.row key := by
  unfold dotPropKey
  rw [hsplit]
  simp [swapIdSeg, h1, h2]

/-- A singleton literal deep-match map compiles to the eq-with-default term. -/
theorem deepMatch_single_lit (key : String) (v : Value) :
    deepMatch [(key, MatchVal.lit v)] none =
      RTerm.eqT (RTerm.dflt (dotPropKey key none) Value.vnull) v :=
  rfl

/-- Evaluating a singleton literal deep match on a document: an equality test
against the property value, where a missing property reads as `null`. -/
theorem evalTerm_lit_filter (key : String) (v : Value) (d : Doc)
    (hsplit : jsSplitDot key = [key]) (h1 : key ≠ "id") (h2 : key ≠ "_id") :
    evalTerm (deepMatch [(key, MatchVal.lit v)] none) (Value.vobj d) =
      EvalRes.ok (Value.vbool (Value.beq (lookupOrNull key d) v)) := by
  rw [deepMatch_single_lit, dotPropKey_single key hsplit h1 h2]
  rcases hg : jsGet key d with _ | w
  · simp [evalTerm, hg, lookupOrNull]
  · cases w <;> simp [evalTerm, hg, lookupOrNull]

/-- The filter keep-decision of a singleton literal deep match. -/
theorem filterKeep_lit (key : String) (v : Value) (d : Doc)
    (hsplit : jsSplitDot key = [key]) (h1 : key ≠ "id") (h2 : key ≠ "_id") :
    filterKeep (deepMatch [(key, MatchVal.lit v)] none) d =
      some (Value.beq (lookupOrNull key d) v) := by
  unfold filterKeep
  rw [evalTerm_lit_filter key v d hsplit h1 h2]
  simp [truthy_vbool]

/-- C7 counterexample: for the key `id` the deep-match accessor is swapped to
the native key `_id`, so on a document without an `id` field (but with a
non-null `_id`) the filter with value null does NOT match, although the
claimed property ("x absent implies match") requires it to. -/
theorem c7_id_swap_counterexample :
    jsGet "id" [("_id", Value.vint 5)] = none ∧
    filterKeep (deepMatch [("id", MatchVal.lit Value.vnull)] none) [("_id", Value.vint 5)] =
      some false :=
  ⟨rfl, rfl⟩

/-- C7 (amended): for every dot-free key other than the identity keys `id` and
`_id` (whose accessors the codec swaps), the deep-match filter binding the key
to null keeps a document exactly when the key is absent or explicitly null;
evaluation always succeeds, so a missing field is never an error. -/
theorem c7_null_filter_matches_absent_or_null (x : String) (d : Doc)
    (hsplit : jsSplitDot x = [x]) (h1 : x ≠ "id") (h2 : x ≠ "_id") :
    filterKeep (deepMatch [(x, MatchVal.lit Value.vnull)] none) d = some true ↔
      (jsGet x d = none ∨ jsGet x d = some Value.vnull) := by
  rw [filterKeep_lit x Value.vnull d hsplit h1 h2]
  constructor
  · intro h
    have hb : Value.beq (lookupOrNull x d) Value.vnull = true := by
      injection h
    have heq := (Value.beq_vnull_iff _).1 hb
    unfold lookupOrNull at heq
    rcases hg : jsGet x d with _ | w
    · exact Or.inl rfl
    · rw [hg] at heq
      have hw : w = Value.vnull := heq
      exact Or.inr (by rw [hw])
  · intro h
    rcases h with h | h <;> simp [lookupOrNull, h, Value.beq]

/-- Witness for C7 (amended): the filter on an ordinary key matches a document
missing the key. -/
theorem c7_witness :
    filterKeep (deepMatch [("x", MatchVal.lit Value.vnull)] none) [("y", Value.vint 1)] =
      some true :=
  (c7_null_filter_matches_absent_or_null "x" [("y", Value.vint 1)] rfl
    (by decide) (by decide)).2 (Or.inl rfl)

/-- A pointwise keep-decision lifts to the whole document list. -/
theorem filterDocs_eq_filter (t : RTerm) (docs : List Doc) (f : Doc → Bool)
    (h : ∀ d ∈ docs, filterKeep t d = some (f d)) :
    filterDocs t docs = some (docs.filter f) := by
  induction docs with
  | nil => rfl
  | cons d ds ih =>
      simp only [filterDocs, List.filter_cons]
      rw [h d (by simp), ih (fun x hx => h x (by simp [hx]))]

/-- Evaluating the disjunction of singleton literal deep matches built by the
non-indexed `in` branch: true exactly when the property (missing read as
null) equals one of the values. -/
theorem evalOrList_lit (key : String) (vals : List Value) (d : Doc)
    (hne : vals ≠ [])
    (hsplit : jsSplitDot key = [key]) (h1 : key ≠ "id") (h2 : key ≠ "_id") :
    evalOrList (vals.map (fun v => deepMatch [(key, MatchVal.lit v)] none)) (Value.vobj d) =
      EvalRes.ok (Value.vbool (vals.any (fun v => Value.beq (lookupOrNull key d) v))) := by
  induction vals with
  | nil => exact absurd rfl hne
  | cons v vs ih =>
      cases vs with
      | nil =>
          simp only [List.map_cons, List.map_nil]
          rw [show evalOrList [deepMatch [(key, MatchVal.lit v)] none] (Value.vobj d) =
              evalTerm (deepMatch [(key, MatchVal.lit v)] none) (Value.vobj d) from rfl]
          rw [evalTerm_lit_filter key v d hsplit h1 h2]
          simp
      | cons v2 vs2 =>
          simp only [List.map_cons]
          rw [show evalOrList (deepMatch [(key, MatchVal.lit v)] none ::
                deepMatch [(key, MatchVal.lit v2)] none ::
                List.map (fun w => deepMatch [(key, MatchVal.lit w)] none) vs2) (Value.vobj d) =
              (match evalTerm (deepMatch [(key, MatchVal.lit v)] none) (Value.vobj d) with
                | .ok x => if truthy x then .ok x
                    else evalOrList (deepMatch [(key, MatchVal.lit v2)] none ::
                      List.map (fun w => deepMatch [(key, MatchVal.lit w)] none) vs2) (Value.vobj d)
                | e => e) from rfl]
          rw [evalTerm_lit_filter key v d hsplit h1 h2]
          rcases hb : Value.beq (lookupOrNull key d) v
          · have ihh := ih (by simp)
            simp only [List.map_cons] at ihh
            simp [truthy_vbool, hb, ihh]
          · simp [truthy_vbool, hb]

/-- The keep-decision of the `R.or` filter of the non-indexed `in` branch. -/
theorem filterKeep_orN_lit (key : String) (vals : List Value) (d : Doc)
    (hne : vals ≠ [])
    (hsplit : jsSplitDot key = [key]) (h1 : key ≠ "id") (h2 : key ≠ "_id") :
    filterKeep (RTerm.orN (vals.map (fun v => deepMatch [(key, MatchVal.lit v)] none))) d =
      some (vals.any (fun v => Value.beq (lookupOrNull key d) v)) := by
  unfold filterKeep
  rw [show evalTerm (RTerm.orN (vals.map (fun v => deepMatch [(key, MatchVal.lit v)] none)))
      (Value.vobj d) =
    evalOrList (vals.map (fun v => deepMatch [(key, MatchVal.lit v)] none)) (Value.vobj d)
    from rfl]
  rw [evalOrList_lit key vals d hne hsplit h1 h2]
  simp [truthy_vbool]

/-- C8 counterexample: an `in` operation with an EMPTY value set is a no-op in
the translation (the dispatch adds no filter), so the translated query keeps
every document, contradicting the claim that it matches no document. -/
theorem c8_empty_in_counterexample :
    queryToCursor [] "c" { pts := [QueryPt.inQ "k" []] } = Cursor.table "c" ∧
    evalCursor [[("k", Value.vint 1)]] (queryToCursor [] "c" { pts := [QueryPt.inQ "k" []] }) =
      some [[("k", Value.vint 1)]] :=
  ⟨rfl, rfl⟩

/-- C8 (amended): for an `in` operation on a dot-free non-identity key without
a usable registered index, the translated query keeps exactly the documents
whose property (missing read as null) equals some member of a NON-EMPTY value
set, and keeps every document when the value set is empty. -/
theorem c8_in_semantics (indexes : Registry) (coll key : String) (vals : List Value)
    (docs : List Doc)
    (hsplit : jsSplitDot key = [key]) (h1 : key ≠ "id") (h2 : key ≠ "_id")
    (hni : hasIndexReg indexes coll key = false) :
    evalCursor docs (queryToCursor indexes coll { pts := [QueryPt.inQ key vals] }) =
      some (if vals.isEmpty then docs
        else docs.filter (fun d => vals.any (fun v => Value.beq (lookupOrNull key d) v))) := by
  have hq : queryToCursor indexes coll { pts := [QueryPt.inQ key vals] } =
      (applyPt indexes coll (initState coll) (QueryPt.inQ key vals)).cursor := rfl
  rw [hq]
  cases vals with
  | nil => simp [applyPt, initState, hni, evalCursor]
  | cons v vs =>
      cases vs with
      | nil =>
          have hcur : (applyPt indexes coll (initState coll) (QueryPt.inQ key [v])).cursor =
              Cursor.filter (Cursor.table coll) (deepMatch [(key, MatchVal.lit v)] none) := by
            simp [applyPt, initState, hni]
          rw [hcur]
          rw [show evalCursor docs
              (Cursor.filter (Cursor.table coll) (deepMatch [(key, MatchVal.lit v)] none)) =
            filterDocs (deepMatch [(key, MatchVal.lit v)] none) docs from rfl]
          rw [filterDocs_eq_filter _ docs
            (fun d => [v].any (fun w => Value.beq (lookupOrNull key d) w))
            (fun d _ => by rw [filterKeep_lit key v d hsplit h1 h2]; simp)]
          simp
      | cons v2 vs2 =>
          have hcur : (applyPt indexes coll (initState coll)
              (QueryPt.inQ key (v :: v2 :: vs2))).cursor =
              Cursor.filter (Cursor.table coll)
                (RTerm.orN ((v :: v2 :: vs2).map
                  (fun w => deepMatch [(key, MatchVal.lit w)] none))) := by
            simp [applyPt, initState, hni]
          rw [hcur]
          rw [show evalCursor docs (Cursor.filter (Cursor.table coll)
              (RTerm.orN ((v :: v2 :: vs2).map
                (fun w => deepMatch [(key, MatchVal.lit w)] none)))) =
            filterDocs (RTerm.orN ((v :: v2 :: vs2).map
              (fun w => deepMatch [(key, MatchVal.lit w)] none))) docs from rfl]
          rw [filterDocs_eq_filter _ docs
            (fun d => (v :: v2 :: vs2).any (fun w => Value.beq (lookupOrNull key d) w))
            (fun d _ => filterKeep_orN_lit key (v :: v2 :: vs2) d (by simp) hsplit h1 h2)]
          simp

/-- Witness for C8 (amended) on a concrete table: the `in` filter keeps
exactly the document whose property is among the values. -/
theorem c8_witness :
    evalCursor [[("k", Value.vint 1)], [("k", Value.vint 2)], [("k", Value.vint 3)]]
        (queryToCursor [] "c" { pts := [QueryPt.inQ "k" [Value.vint 1, Value.vint 3]] }) =
      some [[("k", Value.vint 1)], [("k", Value.vint 3)]] := by
  have h := c8_in_semantics [] "c" "k" [Value.vint 1, Value.vint 3]
    [[("k", Value.vint 1)], [("k", Value.vint 2)], [("k", Value.vint 3)]]
    rfl (by decide) (by decide) rfl
  exact h
